import Mathlib

/-!
Shallow embedding of `src/index.js`, a minimal Express CRUD service for a
"tea" collection. The core state is a process-global array `teaData` and a
counter `nextId`; five routes (POST /teas, GET /teas, GET /teas/:id,
PUT /teas/:id, DELETE /teas/:id) read and mutate it. The HTTP plumbing
(express(), app.listen, express.json body parsing) is the transport layer;
the embedding models each route handler as a pure function from the store
and the already-parsed request pieces (path `:id` string, JSON body) to the
response it sends and the store it leaves behind.
-/

namespace TeaApi

/-- A JSON-ish JavaScript value as it can appear in a parsed request body.
`undef` models the `undefined` produced by destructuring a missing field
(`const { name, price } = req.body` when the body lacks the key). The
handlers never inspect these values, they only store them verbatim, so a
small carrier is faithful. -/
inductive JsonVal where
  | undef
  | strVal (t : String)
  | numVal (x : Int)
  | boolVal (u : Bool)
  | nullVal
  deriving DecidableEq, Repr

/-- One tea entry, as built by the POST handler:
`{ id: nextId++, name, price }`. Ids come from the counter, so they are
naturals; `name` and `price` are whatever the body supplied. -/
structure Record where
  id : Nat
  name : JsonVal
  price : JsonVal
  deriving DecidableEq, Repr

/-- The parsed JSON request body, as far as the handlers look at it.
The POST and PUT handlers destructure only `name` and `price`
(`const { name, price } = req.body`); `idField` stands for an `id` key the
caller may also have put in the body, which no handler ever reads. -/
structure Body where
  name : JsonVal
  price : JsonVal
  idField : JsonVal
  deriving DecidableEq, Repr

/-- The module-level mutable state: `let teaData = []` and `let nextId = 1`. -/
structure Store where
  records : List Record
  nextId : Nat
  deriving DecidableEq, Repr

/-- The state at process start: empty `teaData`, `nextId = 1`. -/
def initialStore : Store := ⟨[], 1⟩

/-- What a handler passes to `res.status(st).send(x)`: a single record, the
whole array, or a text message (the not-found and deleted messages). -/
inductive Response where
  | recordRes (status : Nat) (r : Record)
  | listRes (status : Nat) (rs : List Record)
  | textRes (status : Nat) (body : String)
  deriving DecidableEq, Repr

/-- The HTTP status code of a response. -/
def Response.statusOf : Response → Nat
  | .recordRes st _ => st
  | .listRes st _ => st
  | .textRes st _ => st

/-! ### JavaScript `parseInt`

Every `:id` route computes `parseInt(req.params.id)` (radix argument
omitted). Model: skip leading whitespace, take an optional sign, then with
no explicit radix a `0x`/`0X` lead-in selects base 16, otherwise base 10;
the longest digit run is converted, and `none` stands for `NaN` (no digit
at all). A strict-equality comparison `t.id === NaN` is always false, which
the lookup below reflects by matching on the `Option`. -/

/-- Whitespace characters `parseInt` skips before parsing: the ECMAScript
TrimString set, i.e. WhiteSpace (TAB, VT, FF, SP, NBSP U+00A0, ZWNBSP
U+FEFF, and every Space_Separator code point: U+1680, U+2000–U+200A,
U+202F, U+205F, U+3000) together with the line terminators LF, CR,
LS U+2028 and PS U+2029. -/
def jsWhitespace (c : Char) : Bool :=
  let n := c.toNat
  n = 0x9 || n = 0xa || n = 0xb || n = 0xc || n = 0xd || n = 0x20 ||
  n = 0xa0 || n = 0x1680 || (0x2000 ≤ n && n ≤ 0x200a) ||
  n = 0x2028 || n = 0x2029 || n = 0x202f || n = 0x205f || n = 0x3000 ||
  n = 0xfeff

/-- Value of a base-16 digit character, `none` if it is not one, phrased
over the code point: 48–57 are `0`–`9`, 97–102 are `a`–`f` (value
code − 87), 65–70 are `A`–`F` (value code − 55). -/
def hexDigitVal (c : Char) : Option Nat :=
  let n := c.toNat
  if 48 ≤ n ∧ n ≤ 57 then some (n - 48)
  else if 97 ≤ n ∧ n ≤ 102 then some (n - 87)
  else if 65 ≤ n ∧ n ≤ 70 then some (n - 55)
  else none

/-- Value of a base-10 digit character (code points 48–57), `none` if it
is not one. -/
def decDigitVal (c : Char) : Option Nat :=
  let n := c.toNat
  if 48 ≤ n ∧ n ≤ 57 then some (n - 48) else none

/-- Convert the longest run of digits (under `dv`) at the front of `cs`;
`none` when there is no digit at all (JS `NaN`). -/
def parseDigits (base : Nat) (dv : Char → Option Nat) (cs : List Char) : Option Nat :=
  let ds := cs.takeWhile (fun c => (dv c).isSome)
  if ds.isEmpty then none
  else some (ds.foldl (fun a c => base * a + ((dv c).getD 0)) 0)

/-- Magnitude part of `parseInt` after whitespace and sign: a `0x`/`0X`
lead-in selects hexadecimal, otherwise decimal. -/
def parseUnsigned (cs : List Char) : Option Nat :=
  match cs with
  | '0' :: 'x' :: rest => parseDigits 16 hexDigitVal rest
  | '0' :: 'X' :: rest => parseDigits 16 hexDigitVal rest
  | _ => parseDigits 10 decDigitVal cs

/-- JavaScript `parseInt(s)` with the radix argument omitted; `none` is `NaN`. -/
def jsParseInt (s : String) : Option Int :=
  match s.data.dropWhile jsWhitespace with
  | '-' :: rest => (parseUnsigned rest).map (fun n => -(n : Int))
  | '+' :: rest => (parseUnsigned rest).map (fun n => (n : Int))
  | cs => (parseUnsigned cs).map (fun n => (n : Int))

/-! ### The five route handlers -/

/-- The comparison `t.id === parseInt(req.params.id)`: strict equality of
the record id against the parsed path id; false when the parse gave `NaN`. -/
def idMatches (pid : Option Int) (t : Record) : Bool :=
  match pid with
  | some i => (t.id : Int) == i
  | none => false

/-- `app.post("/teas")`: destructures `name` and `price` from the body,
builds `{ id: nextId++, name, price }`, pushes it onto `teaData`, and
answers `201` with the new record. The dead first line `req.body.price;`
reads a field and discards it, with no effect to model. -/
def postTea (s : Store) (body : Body) : Response × Store :=
  let newTea : Record := { id := s.nextId, name := body.name, price := body.price }
  (.recordRes 201 newTea, { records := s.records ++ [newTea], nextId := s.nextId + 1 })

/-- `app.get("/teas")`: answers `200` with the whole `teaData` array. It
reads the store and does not touch it. -/
def listTeas (s : Store) : Response :=
  .listRes 200 s.records

/-- `app.get("/teas/:id")`: `teaData.find(t => t.id === parseInt(req.params.id))`,
then `404 "tea not found "` when absent, `200` with the record when found. -/
def getTea (s : Store) (idStr : String) : Response :=
  match s.records.find? (idMatches (jsParseInt idStr)) with
  | none => .textRes 404 "tea not found "
  | some tea => .recordRes 200 tea

/-- Effect of `tea.name = name; tea.price = price` on the array: `find`
returns a reference to the first matching element, so the two assignments
replace that element's `name` and `price` in place and leave every other
element alone. -/
def updateFirst (pid : Option Int) (nm pr : JsonVal) : List Record → List Record
  | [] => []
  | t :: rest =>
    if idMatches pid t then { t with name := nm, price := pr } :: rest
    else t :: updateFirst pid nm pr rest

/-- `app.put("/teas/:id")`: finds the record by parsed id; absent gives
`404 "tea not found "` and no state change; present overwrites `name` and
`price` with the body's values and answers `200` with the mutated record. -/
def putTea (s : Store) (idStr : String) (body : Body) : Response × Store :=
  let pid := jsParseInt idStr
  match s.records.find? (idMatches pid) with
  | none => (.textRes 404 "tea not found ", s)
  | some tea =>
    let tea' : Record := { tea with name := body.name, price := body.price }
    (.recordRes 200 tea', { s with records := updateFirst pid body.name body.price s.records })

/-- `app.delete("/teas/:id")`: `teaData.findIndex(t => t.id === parseInt(...))`;
index `-1` gives `404 "tea not found"` (no trailing space in this one) and no
state change; otherwise `teaData.splice(index, 1)` removes that one element
and the handler answers `res.status(204).send("deleted ")`. -/
def deleteTea (s : Store) (idStr : String) : Response × Store :=
  match s.records.findIdx? (idMatches (jsParseInt idStr)) with
  | none => (.textRes 404 "tea not found", s)
  | some index => (.textRes 204 "deleted ", { s with records := s.records.eraseIdx index })

/-! ### Request sequences -/

/-- One incoming request, dispatched to the handler of its route. -/
inductive Op where
  | create (body : Body)
  | list
  | get (idStr : String)
  | update (idStr : String) (body : Body)
  | delete (idStr : String)

/-- The store left behind after one request is handled. -/
def applyOp (s : Store) : Op → Store
  | .create body => (postTea s body).2
  | .list => s
  | .get _ => s
  | .update idStr body => (putTea s idStr body).2
  | .delete idStr => (deleteTea s idStr).2

/-- The store after a sequence of requests. -/
def runOps (s : Store) : List Op → Store
  | [] => s
  | op :: ops => runOps (applyOp s op) ops

/-- The ids of the records returned by the create calls of a request
sequence, in order. The POST handler returns the record it built, whose id
is the store's counter at that moment. -/
def createdIds (s : Store) : List Op → List Nat
  | [] => []
  | op :: ops =>
    (match op with
      | .create _ => [s.nextId]
      | _ => []) ++ createdIds (applyOp s op) ops

/-- The store invariant: every stored id is below the counter, and no two
stored records share an id. -/
def Inv (s : Store) : Prop :=
  (∀ r ∈ s.records, r.id < s.nextId) ∧ (s.records.map Record.id).Nodup

/-- Specification helper (not from the source): the records that `k`
creates with bodies `bs` should leave behind when the counter starts at
`n` — one record per body, ids consecutive from `n`, in call order. -/
def creationRecords (n : Nat) : List Body → List Record
  | [] => []
  | b :: bs => ⟨n, b.name, b.price⟩ :: creationRecords (n + 1) bs

/-- A concrete request body used by the witnesses. -/
def sampleBody : Body := ⟨.strVal "Green Tea", .numVal 100, .undef⟩

/-- A concrete second body used by the witnesses. -/
def sampleBody2 : Body := ⟨.strVal "Black Tea", .numVal 80, .undef⟩

/-! ### Helper lemmas -/

theorem inv_initial : Inv initialStore := by
  constructor
  · intro r hr; simp [initialStore] at hr
  · simp [initialStore]

theorem exists_first_split {p : Record → Bool} {l : List Record}
    (h : ∃ x ∈ l, p x = true) :
    ∃ l1 t l2, l = l1 ++ t :: l2 ∧ p t = true ∧ ∀ x ∈ l1, p x = false := by
  induction l with
  | nil => simp at h
  | cons a l ih =>
    by_cases hpa : p a = true
    · exact ⟨[], a, l, rfl, hpa, by simp⟩
    · have h' : ∃ x ∈ l, p x = true := by
        rcases h with ⟨x, hx, hpx⟩
        rcases List.mem_cons.1 hx with rfl | hx'
        · exact absurd hpx hpa
        · exact ⟨x, hx', hpx⟩
      rcases ih h' with ⟨l1, t, l2, heq, hpt, hpre⟩
      refine ⟨a :: l1, t, l2, by simp [heq], hpt, ?_⟩
      intro x hx
      rcases List.mem_cons.1 hx with rfl | hx'
      · simpa using hpa
      · exact hpre x hx'

theorem find?_first {p : Record → Bool} {l1 l2 : List Record} {t : Record}
    (hpre : ∀ x ∈ l1, p x = false) (hpt : p t = true) :
    (l1 ++ t :: l2).find? p = some t := by
  have h1 : l1.find? p = none :=
    List.find?_eq_none.2 (fun x hx => by simp [hpre x hx])
  rw [List.find?_append, h1]
  simp [List.find?_cons_of_pos _ hpt]

theorem findIdx?_first {p : Record → Bool} {l1 l2 : List Record} {t : Record}
    (hpre : ∀ x ∈ l1, p x = false) (hpt : p t = true) :
    (l1 ++ t :: l2).findIdx? p = some l1.length := by
  induction l1 with
  | nil => simp [List.findIdx?_cons, hpt]
  | cons a l1 ih =>
    have hpa := hpre a (List.mem_cons_self a l1)
    have ih' := ih (fun x hx => hpre x (List.mem_cons_of_mem a hx))
    simp [List.findIdx?_cons, hpa, List.findIdx?_succ, ih']

theorem eraseIdx_split (l1 l2 : List Record) (t : Record) :
    (l1 ++ t :: l2).eraseIdx l1.length = l1 ++ l2 := by
  induction l1 with
  | nil => simp
  | cons a l1 ih => simp [ih]

theorem updateFirst_split {pid : Option Int} {nm pr : JsonVal}
    {l1 l2 : List Record} {t : Record}
    (hpre : ∀ x ∈ l1, idMatches pid x = false) (hpt : idMatches pid t = true) :
    updateFirst pid nm pr (l1 ++ t :: l2) =
      l1 ++ { t with name := nm, price := pr } :: l2 := by
  induction l1 with
  | nil => simp [updateFirst, hpt]
  | cons a l1 ih =>
    have hpa := hpre a (List.mem_cons_self a l1)
    have ih' := ih (fun x hx => hpre x (List.mem_cons_of_mem a hx))
    simp [updateFirst, hpa, ih']

theorem updateFirst_map_id (pid : Option Int) (nm pr : JsonVal) (l : List Record) :
    (updateFirst pid nm pr l).map Record.id = l.map Record.id := by
  induction l with
  | nil => rfl
  | cons a l ih =>
    cases h : idMatches pid a with
    | true => simp [updateFirst, h]
    | false => simp [updateFirst, h, ih]

theorem inv_applyOp {s : Store} (op : Op) (h : Inv s) : Inv (applyOp s op) := by
  obtain ⟨hlt, hnd⟩ := h
  cases op with
  | create b =>
    refine ⟨?_, ?_⟩
    · intro r hr
      simp only [applyOp, postTea, List.mem_append, List.mem_singleton] at hr
      rcases hr with hr | rfl
      · exact Nat.lt_succ_of_lt (hlt r hr)
      · exact Nat.lt_succ_self _
    · simp only [applyOp, postTea, List.map_append, List.map_cons, List.map_nil]
      rw [List.nodup_append]
      refine ⟨hnd, List.nodup_singleton _, ?_⟩
      intro x hx hx'
      simp only [List.mem_singleton] at hx'
      rcases List.mem_map.1 hx with ⟨r, hr, hid⟩
      subst hx'
      exact absurd (hid ▸ hlt r hr) (Nat.lt_irrefl _)
  | list => exact ⟨hlt, hnd⟩
  | get idStr => exact ⟨hlt, hnd⟩
  | update idStr b =>
    simp only [applyOp, putTea]
    cases hfind : s.records.find? (idMatches (jsParseInt idStr)) with
    | none => exact ⟨hlt, hnd⟩
    | some t =>
      refine ⟨?_, ?_⟩
      · intro r hr
        have hmem : r.id ∈ (updateFirst (jsParseInt idStr) b.name b.price s.records).map
            Record.id := List.mem_map_of_mem _ hr
        rw [updateFirst_map_id] at hmem
        rcases List.mem_map.1 hmem with ⟨r', hr', hid⟩
        exact hid ▸ hlt r' hr'
      · rw [updateFirst_map_id]; exact hnd
  | delete idStr =>
    simp only [applyOp, deleteTea]
    cases hfind : s.records.findIdx? (idMatches (jsParseInt idStr)) with
    | none => exact ⟨hlt, hnd⟩
    | some idx =>
      have hsub : List.Sublist (s.records.eraseIdx idx) s.records :=
        List.eraseIdx_sublist _ _
      exact ⟨fun r hr => hlt r (hsub.subset hr), hnd.sublist (hsub.map _)⟩

theorem nextId_le_applyOp (s : Store) (op : Op) : s.nextId ≤ (applyOp s op).nextId := by
  cases op with
  | create b => exact Nat.le_succ _
  | list => exact Nat.le_refl _
  | get idStr => exact Nat.le_refl _
  | update idStr b =>
    simp only [applyOp, putTea]
    cases hfind : s.records.find? (idMatches (jsParseInt idStr)) <;> simp
  | delete idStr =>
    simp only [applyOp, deleteTea]
    cases hfind : s.records.findIdx? (idMatches (jsParseInt idStr)) <;> simp

theorem nextId_le_runOps (s : Store) (ops : List Op) :
    s.nextId ≤ (runOps s ops).nextId := by
  induction ops generalizing s with
  | nil => exact Nat.le_refl _
  | cons op ops ih =>
    exact Nat.le_trans (nextId_le_applyOp s op) (ih (applyOp s op))

theorem inv_runOps (s : Store) (ops : List Op) (h : Inv s) : Inv (runOps s ops) := by
  induction ops generalizing s with
  | nil => exact h
  | cons op ops ih => exact ih _ (inv_applyOp op h)

theorem createdIds_lt (ops : List Op) (s : Store) :
    ∀ i ∈ createdIds s ops, i < (runOps s ops).nextId := by
  induction ops generalizing s with
  | nil => intro i hi; simp [createdIds] at hi
  | cons op ops ih =>
    intro i hi
    cases op with
    | create b =>
      simp only [createdIds, List.singleton_append, List.mem_cons] at hi
      simp only [runOps]
      rcases hi with rfl | hi
      · have hle := nextId_le_runOps (applyOp s (Op.create b)) ops
        exact Nat.lt_of_lt_of_le (Nat.lt_succ_self s.nextId) hle
      · exact ih (applyOp s (Op.create b)) i hi
    | list => exact ih _ i (by simpa [createdIds] using hi)
    | get idStr => exact ih _ i (by simpa [createdIds] using hi)
    | update idStr b => exact ih _ i (by simpa [createdIds] using hi)
    | delete idStr => exact ih _ i (by simpa [createdIds] using hi)

theorem createdIds_creates (bs : List Body) (s : Store) :
    createdIds s (bs.map Op.create) = List.range' s.nextId bs.length := by
  induction bs generalizing s with
  | nil => rfl
  | cons b bs ih =>
    have hnext : (applyOp s (Op.create b)).nextId = s.nextId + 1 := rfl
    simp only [List.map_cons, createdIds, List.length_cons, List.range'_succ,
      List.singleton_append, ih (applyOp s (Op.create b)), hnext]

theorem runOps_creates_records (bs : List Body) (s : Store) :
    (runOps s (bs.map Op.create)).records = s.records ++ creationRecords s.nextId bs := by
  induction bs generalizing s with
  | nil => simp [runOps, creationRecords]
  | cons b bs ih =>
    have hnext : (applyOp s (Op.create b)).nextId = s.nextId + 1 := rfl
    simp only [List.map_cons, runOps, creationRecords, ih (applyOp s (Op.create b)), hnext]
    simp [applyOp, postTea]

theorem creationRecords_length (n : Nat) (bs : List Body) :
    (creationRecords n bs).length = bs.length := by
  induction bs generalizing n with
  | nil => rfl
  | cons b bs ih => simp [creationRecords, ih]

/-! ### Claims -/

/-- C1: from the initial store, the ids returned by any sequence of create
calls are `1, 2, …, k` (strictly increasing from 1); the initial store
satisfies the uniqueness/counter invariant, every operation preserves it,
every reachable store satisfies it, and `nextId` stays strictly above every
id ever handed out by a create, deleted or not. -/
theorem claim1_id_assignment (bs : List Body) (ops : List Op) (s : Store) (op : Op)
    (h : Inv s) :
    createdIds initialStore (bs.map Op.create) = List.range' 1 bs.length ∧
    Inv initialStore ∧
    Inv (applyOp s op) ∧
    Inv (runOps initialStore ops) ∧
    ∀ i ∈ createdIds initialStore ops, i < (runOps initialStore ops).nextId := by
  refine ⟨?_, inv_initial, inv_applyOp op h, inv_runOps _ ops inv_initial,
    createdIds_lt ops initialStore⟩
  simpa [initialStore] using createdIds_creates bs initialStore

/-- Witness for C1 at a concrete run: one create followed by a delete. -/
theorem claim1_witness :
    Inv initialStore ∧
    (createdIds initialStore ([sampleBody].map Op.create) =
        List.range' 1 [sampleBody].length ∧
      Inv initialStore ∧
      Inv (applyOp initialStore (Op.create sampleBody)) ∧
      Inv (runOps initialStore [Op.create sampleBody, Op.delete "1"]) ∧
      ∀ i ∈ createdIds initialStore [Op.create sampleBody, Op.delete "1"],
        i < (runOps initialStore [Op.create sampleBody, Op.delete "1"]).nextId) :=
  ⟨inv_initial,
    claim1_id_assignment [sampleBody] [Op.create sampleBody, Op.delete "1"]
      initialStore (Op.create sampleBody) inv_initial⟩

/-- C2: on any store whose ids are below the counter (the reachable-state
invariant), create followed by a get at the returned record's id answers
200 with exactly the record `{id := the returned id, name, price}` built
from the supplied body, and the create call itself returned that record
with status 201. -/
theorem claim2_create_then_get (s : Store) (b : Body) (idStr : String)
    (hinv : ∀ r ∈ s.records, r.id < s.nextId)
    (hp : jsParseInt idStr = some (s.nextId : Int)) :
    (postTea s b).1 = .recordRes 201 ⟨s.nextId, b.name, b.price⟩ ∧
    getTea (postTea s b).2 idStr = .recordRes 200 ⟨s.nextId, b.name, b.price⟩ := by
  refine ⟨rfl, ?_⟩
  have hpre : ∀ x ∈ s.records, idMatches (some (s.nextId : Int)) x = false := by
    intro x hx
    have hxlt := hinv x hx
    simp only [idMatches, beq_eq_false_iff_ne, ne_eq]
    omega
  have hpt : idMatches (some (s.nextId : Int)) ⟨s.nextId, b.name, b.price⟩ = true := by
    simp [idMatches]
  have hfind := @find?_first (idMatches (some (s.nextId : Int))) s.records []
    ⟨s.nextId, b.name, b.price⟩ hpre hpt
  simp only [getTea, postTea, hp]
  rw [hfind]

/-- Witness for C2: create on the empty store, then get at "/teas/1". -/
theorem claim2_witness :
    ((∀ r ∈ initialStore.records, r.id < initialStore.nextId) ∧
      jsParseInt "1" = some (initialStore.nextId : Int)) ∧
    ((postTea initialStore sampleBody).1 =
        .recordRes 201 ⟨initialStore.nextId, sampleBody.name, sampleBody.price⟩ ∧
      getTea (postTea initialStore sampleBody).2 "1" =
        .recordRes 200 ⟨initialStore.nextId, sampleBody.name, sampleBody.price⟩) :=
  ⟨⟨by simp [initialStore], by decide⟩,
    claim2_create_then_get initialStore sampleBody "1" (by simp [initialStore]) (by decide)⟩

/-- C3: when no stored record carries the requested id, the update and the
delete handlers answer 404 with their not-found text and hand back the
store exactly as it was — same records, same counter. -/
theorem claim3_missing_id_unchanged (s : Store) (idStr : String) (b : Body) (i : Int)
    (hp : jsParseInt idStr = some i)
    (habs : ∀ r ∈ s.records, (r.id : Int) ≠ i) :
    putTea s idStr b = (.textRes 404 "tea not found ", s) ∧
    deleteTea s idStr = (.textRes 404 "tea not found", s) := by
  have hfalse : ∀ r ∈ s.records, idMatches (jsParseInt idStr) r = false := by
    intro r hr
    rw [hp]
    simp only [idMatches, beq_eq_false_iff_ne, ne_eq]
    exact habs r hr
  have hfind : s.records.find? (idMatches (jsParseInt idStr)) = none :=
    List.find?_eq_none.2 (fun x hx => by simp [hfalse x hx])
  have hfindIdx : s.records.findIdx? (idMatches (jsParseInt idStr)) = none :=
    List.findIdx?_eq_none_iff.2 hfalse
  constructor
  · simp only [putTea, hfind]
  · simp only [deleteTea, hfindIdx]

/-- Witness for C3: a store holding record 1, asked to update/delete id 5. -/
theorem claim3_witness :
    (jsParseInt "5" = some 5 ∧
      (∀ r ∈ (postTea initialStore sampleBody).2.records, (r.id : Int) ≠ 5)) ∧
    (putTea (postTea initialStore sampleBody).2 "5" sampleBody2 =
        (.textRes 404 "tea not found ", (postTea initialStore sampleBody).2) ∧
      deleteTea (postTea initialStore sampleBody).2 "5" =
        (.textRes 404 "tea not found", (postTea initialStore sampleBody).2)) :=
  ⟨⟨by decide, by decide⟩,
    claim3_missing_id_unchanged (postTea initialStore sampleBody).2 "5" sampleBody2 5
      (by decide) (by decide)⟩

/-- C4: on a store with pairwise-distinct ids (the invariant) holding a
record with the requested id, delete splits the records around the first
match and removes exactly that one element, keeping the rest in order, and
a get at the same id afterwards answers 404. -/
theorem claim4_delete_removes_one (s : Store) (idStr : String) (i : Int)
    (hp : jsParseInt idStr = some i)
    (hnd : (s.records.map Record.id).Nodup)
    (hmem : ∃ r ∈ s.records, (r.id : Int) = i) :
    ∃ l1 t l2,
      s.records = l1 ++ t :: l2 ∧ (t.id : Int) = i ∧ (∀ x ∈ l1, (x.id : Int) ≠ i) ∧
      deleteTea s idStr =
        (.textRes 204 "deleted ", { records := l1 ++ l2, nextId := s.nextId }) ∧
      getTea (deleteTea s idStr).2 idStr = .textRes 404 "tea not found " := by
  have hex : ∃ x ∈ s.records, idMatches (jsParseInt idStr) x = true := by
    rcases hmem with ⟨r, hr, hri⟩
    exact ⟨r, hr, by rw [hp]; simp [idMatches, hri]⟩
  rcases exists_first_split hex with ⟨l1, t, l2, heq, hpt, hpre⟩
  have hti : (t.id : Int) = i := by
    rw [hp] at hpt
    simpa [idMatches] using hpt
  have hpre' : ∀ x ∈ l1, (x.id : Int) ≠ i := by
    intro x hx
    have hf := hpre x hx
    rw [hp] at hf
    simpa [idMatches] using hf
  have hidx : s.records.findIdx? (idMatches (jsParseInt idStr)) = some l1.length := by
    rw [heq]
    exact findIdx?_first hpre hpt
  have herase : s.records.eraseIdx l1.length = l1 ++ l2 := by
    rw [heq]
    exact eraseIdx_split l1 l2 t
  have hdel : deleteTea s idStr =
      (.textRes 204 "deleted ", { records := l1 ++ l2, nextId := s.nextId }) := by
    simp only [deleteTea, hidx, herase]
  have hnd' : (l1.map Record.id ++ t.id :: l2.map Record.id).Nodup := by
    have h0 := heq ▸ hnd
    simpa using h0
  have hnotmem : t.id ∉ l2.map Record.id :=
    (List.nodup_cons.1 (List.nodup_append.1 hnd').2.1).1
  have hnone : (l1 ++ l2).find? (idMatches (jsParseInt idStr)) = none := by
    apply List.find?_eq_none.2
    intro x hx hpx
    rcases List.mem_append.1 hx with hx1 | hx2
    · rw [hp] at hpx
      exact hpre' x hx1 (by simpa [idMatches] using hpx)
    · rw [hp] at hpx
      have hxi : (x.id : Int) = i := by simpa [idMatches] using hpx
      have hxid : x.id = t.id := by omega
      exact hnotmem (hxid ▸ List.mem_map_of_mem Record.id hx2)
  refine ⟨l1, t, l2, heq, hti, hpre', hdel, ?_⟩
  rw [hdel]
  simp only [getTea, hnone]

/-- Witness for C4: two creates, then delete id 2 and get id 2. -/
theorem claim4_witness :
    (jsParseInt "2" = some 2 ∧
      ((((postTea (postTea initialStore sampleBody).2 sampleBody2).2.records).map
        Record.id).Nodup) ∧
      (∃ r ∈ (postTea (postTea initialStore sampleBody).2 sampleBody2).2.records,
        (r.id : Int) = 2)) ∧
    (∃ l1 t l2,
      (postTea (postTea initialStore sampleBody).2 sampleBody2).2.records =
          l1 ++ t :: l2 ∧
        (t.id : Int) = 2 ∧ (∀ x ∈ l1, (x.id : Int) ≠ 2) ∧
        deleteTea (postTea (postTea initialStore sampleBody).2 sampleBody2).2 "2" =
          (.textRes 204 "deleted ",
            { records := l1 ++ l2,
              nextId := (postTea (postTea initialStore sampleBody).2 sampleBody2).2.nextId }) ∧
        getTea (deleteTea (postTea (postTea initialStore sampleBody).2 sampleBody2).2 "2").2
            "2" = .textRes 404 "tea not found ") :=
  ⟨⟨by decide, by decide, by decide⟩,
    claim4_delete_removes_one (postTea (postTea initialStore sampleBody).2 sampleBody2).2
      "2" 2 (by decide) (by decide) (by decide)⟩

/-- C5: on a store holding a record with the requested id, update replaces
both the name and the price of the first record carrying that id with the
body's values, leaves its id and position and every other record and the
counter untouched, and answers 200 with the mutated record. -/
theorem claim5_update_overwrites (s : Store) (idStr : String) (b : Body) (i : Int)
    (hp : jsParseInt idStr = some i)
    (hmem : ∃ r ∈ s.records, (r.id : Int) = i) :
    ∃ l1 t l2,
      s.records = l1 ++ t :: l2 ∧ (t.id : Int) = i ∧ (∀ x ∈ l1, (x.id : Int) ≠ i) ∧
      putTea s idStr b =
        (.recordRes 200 ⟨t.id, b.name, b.price⟩,
          { records := l1 ++ ⟨t.id, b.name, b.price⟩ :: l2, nextId := s.nextId }) := by
  have hex : ∃ x ∈ s.records, idMatches (jsParseInt idStr) x = true := by
    rcases hmem with ⟨r, hr, hri⟩
    exact ⟨r, hr, by rw [hp]; simp [idMatches, hri]⟩
  rcases exists_first_split hex with ⟨l1, t, l2, heq, hpt, hpre⟩
  have hti : (t.id : Int) = i := by
    rw [hp] at hpt
    simpa [idMatches] using hpt
  have hpre' : ∀ x ∈ l1, (x.id : Int) ≠ i := by
    intro x hx
    have hf := hpre x hx
    rw [hp] at hf
    simpa [idMatches] using hf
  have hfind : s.records.find? (idMatches (jsParseInt idStr)) = some t := by
    rw [heq]
    exact find?_first hpre hpt
  have hupd : updateFirst (jsParseInt idStr) b.name b.price s.records =
      l1 ++ ⟨t.id, b.name, b.price⟩ :: l2 := by
    rw [heq]
    exact updateFirst_split hpre hpt
  refine ⟨l1, t, l2, heq, hti, hpre', ?_⟩
  simp only [putTea, hfind, hupd]

/-- Witness for C5: two creates, then update id 1 with a new body. -/
theorem claim5_witness :
    (jsParseInt "1" = some 1 ∧
      (∃ r ∈ (postTea (postTea initialStore sampleBody).2 sampleBody2).2.records,
        (r.id : Int) = 1)) ∧
    (∃ l1 t l2,
      (postTea (postTea initialStore sampleBody).2 sampleBody2).2.records =
          l1 ++ t :: l2 ∧
        (t.id : Int) = 1 ∧ (∀ x ∈ l1, (x.id : Int) ≠ 1) ∧
        putTea (postTea (postTea initialStore sampleBody).2 sampleBody2).2 "1"
            ⟨.strVal "Green Tea Updated", .numVal 120, .undef⟩ =
          (.recordRes 200 ⟨t.id, .strVal "Green Tea Updated", .numVal 120⟩,
            { records := l1 ++ ⟨t.id, .strVal "Green Tea Updated", .numVal 120⟩ :: l2,
              nextId := (postTea (postTea initialStore sampleBody).2 sampleBody2).2.nextId })) :=
  ⟨⟨by decide, by decide⟩,
    claim5_update_overwrites (postTea (postTea initialStore sampleBody).2 sampleBody2).2
      "1" ⟨.strVal "Green Tea Updated", .numVal 120, .undef⟩ 1 (by decide) (by decide)⟩

/-- C6: from the initial store, k creates leave exactly k records, one per
body in call order with consecutive ids from 1; the list handler answers
200 with the records as they are, touches nothing, and a second list call
with no mutation in between answers the same. -/
theorem claim6_list_after_creates (bs : List Body) (s : Store) :
    (runOps initialStore (bs.map Op.create)).records = creationRecords 1 bs ∧
    (runOps initialStore (bs.map Op.create)).records.length = bs.length ∧
    listTeas s = .listRes 200 s.records ∧
    applyOp s Op.list = s ∧
    listTeas (applyOp s Op.list) = listTeas s := by
  have h1 : (runOps initialStore (bs.map Op.create)).records = creationRecords 1 bs := by
    simpa [initialStore] using runOps_creates_records bs initialStore
  refine ⟨h1, ?_, rfl, rfl, rfl⟩
  rw [h1, creationRecords_length]

/-- C7 counterexample: deleting the record with id 1 from a one-record
store succeeds with status 204, but the handler passes the non-empty text
"deleted " to send, not an empty body. -/
theorem claim7_counterexample :
    (deleteTea (postTea initialStore sampleBody).2 "1").1 = .textRes 204 "deleted " ∧
    ((deleteTea (postTea initialStore sampleBody).2 "1").1 =
      Response.textRes 204 "") = False :=
  ⟨by decide, eq_false (by decide)⟩

/-- C7 amended: on a store holding a record with the requested id, the
delete handler's success result is status 204 carrying no record data —
its body is the fixed text "deleted " (which HTTP 204 semantics make the
transport drop), not an empty string. -/
theorem claim7_delete_status (s : Store) (idStr : String) (i : Int)
    (hp : jsParseInt idStr = some i)
    (hmem : ∃ r ∈ s.records, (r.id : Int) = i) :
    (deleteTea s idStr).1 = .textRes 204 "deleted " ∧
    Response.statusOf (deleteTea s idStr).1 = 204 := by
  have hex : ∃ x ∈ s.records, idMatches (jsParseInt idStr) x = true := by
    rcases hmem with ⟨r, hr, hri⟩
    exact ⟨r, hr, by rw [hp]; simp [idMatches, hri]⟩
  rcases exists_first_split hex with ⟨l1, t, l2, heq, hpt, hpre⟩
  have hidx : s.records.findIdx? (idMatches (jsParseInt idStr)) = some l1.length := by
    rw [heq]
    exact findIdx?_first hpre hpt
  constructor
  · simp only [deleteTea, hidx]
  · simp only [deleteTea, hidx, Response.statusOf]

/-- Witness for the amended C7: delete id 1 from a one-record store. -/
theorem claim7_witness :
    (jsParseInt "1" = some 1 ∧
      (∃ r ∈ (postTea initialStore sampleBody).2.records, (r.id : Int) = 1)) ∧
    ((deleteTea (postTea initialStore sampleBody).2 "1").1 = .textRes 204 "deleted " ∧
      Response.statusOf (deleteTea (postTea initialStore sampleBody).2 "1").1 = 204) :=
  ⟨⟨by decide, by decide⟩,
    claim7_delete_status (postTea initialStore sampleBody).2 "1" 1 (by decide) (by decide)⟩

/-- C8: the create handler succeeds on every store and every body — it
answers 201 with the record built verbatim from whatever `name` and
`price` the body carried (missing fields included, as `undef`), appends it,
bumps the counter, and has no failure branch. -/
theorem claim8_create_no_validation (s : Store) (b : Body) :
    postTea s b =
      (.recordRes 201 ⟨s.nextId, b.name, b.price⟩,
        { records := s.records ++ [⟨s.nextId, b.name, b.price⟩],
          nextId := s.nextId + 1 }) ∧
    Response.statusOf (postTea s b).1 = 201 :=
  ⟨rfl, rfl⟩

/-- C9 counterexample: "1abc" is not an integer, yet on a store holding
record 1 the get handler answers 200 with that record, because
`parseInt("1abc")` yields 1 — not the claimed 404. -/
theorem claim9_counterexample :
    getTea (postTea initialStore sampleBody).2 "1abc" =
      .recordRes 200 ⟨1, .strVal "Green Tea", .numVal 100⟩ ∧
    (Response.statusOf (getTea (postTea initialStore sampleBody).2 "1abc") = 404) = False :=
  ⟨by decide, eq_false (by decide)⟩

/-- C9 amended: an id path string from which `parseInt` extracts no
integer at all (no leading digits after optional whitespace and sign, e.g.
"abc") makes all three id routes answer 404 and leave the store untouched;
a string with a leading integer followed by junk, such as "1abc", is
instead treated as that integer. -/
theorem claim9_unparsable_id (s : Store) (idStr : String) (b : Body)
    (hp : jsParseInt idStr = none) :
    getTea s idStr = .textRes 404 "tea not found " ∧
    putTea s idStr b = (.textRes 404 "tea not found ", s) ∧
    deleteTea s idStr = (.textRes 404 "tea not found", s) := by
  have hfalse : ∀ r ∈ s.records, idMatches (jsParseInt idStr) r = false := by
    intro r hr
    rw [hp]
    rfl
  have hfind : s.records.find? (idMatches (jsParseInt idStr)) = none :=
    List.find?_eq_none.2 (fun x hx => by simp [hfalse x hx])
  have hfindIdx : s.records.findIdx? (idMatches (jsParseInt idStr)) = none :=
    List.findIdx?_eq_none_iff.2 hfalse
  refine ⟨?_, ?_, ?_⟩
  · simp only [getTea, hfind]
  · simp only [putTea, hfind]
  · simp only [deleteTea, hfindIdx]

/-- Witness for the amended C9: "abc" against a one-record store. -/
theorem claim9_witness :
    jsParseInt "abc" = none ∧
    (getTea (postTea initialStore sampleBody).2 "abc" = .textRes 404 "tea not found " ∧
      putTea (postTea initialStore sampleBody).2 "abc" sampleBody2 =
        (.textRes 404 "tea not found ", (postTea initialStore sampleBody).2) ∧
      deleteTea (postTea initialStore sampleBody).2 "abc" =
        (.textRes 404 "tea not found", (postTea initialStore sampleBody).2)) :=
  ⟨by decide,
    claim9_unparsable_id (postTea initialStore sampleBody).2 "abc" sampleBody2 (by decide)⟩

/-- C10: the create handler reads only the body's `name` and `price`: two
bodies that agree on those but carry different `id` fields produce the same
response and the same store, and the created record's id is always the
store's own counter. -/
theorem claim10_body_id_ignored (s : Store) (nm pr ex1 ex2 : JsonVal) :
    postTea s ⟨nm, pr, ex1⟩ = postTea s ⟨nm, pr, ex2⟩ ∧
    (postTea s ⟨nm, pr, ex1⟩).1 = .recordRes 201 ⟨s.nextId, nm, pr⟩ :=
  ⟨rfl, rfl⟩

end TeaApi
